import Mathlib

/-!
# Verification of the path-finding experiment's scheduler / agent core

This file is a shallow embedding, in Lean 4, of the event scheduler
(`src/events.rs`), the grid world (`src/map.rs`), the agent state machine
(`src/agent.rs`) and the stream-accumulation loop of
`Agent::execute_instruction`, together with theorems settling the frozen
claims C1..C10 about the natural-language specification.

Modelling conventions:
* `Instant` and `Duration` are modelled as `Nat` milliseconds; functions that
  call `Instant::now()` in Rust take an explicit `now : Nat` argument
  (the program is single-threaded per tick, so one call sees one clock value).
* Rust `usize` arithmetic is `Nat` (subtraction truncates at 0 where the Rust
  code can only underflow on inputs the program never produces);
  `i32` values are `Int`, with `saturating_sub` saturating at `i32::MIN`.
* `serde_json::Value` is `JsonValue` with integer numbers (the program only
  ever reads integers out of argument JSON); rendering to a string sorts
  object keys, as `serde_json`'s default `BTreeMap`-backed map does.
* Rust `Result<T, String>` is `Except String T`; `Result<(), String>` for
  event outcomes is the inductive `RunResult`.
* Fields of `Agent` that none of the modelled operations read or write
  (`chat_history`, `enabled_tools`, `tool_registry`) are omitted.
-/

/-! ## JSON values (serde_json::Value restricted to integer numbers) -/

/-- Model of `serde_json::Value`; numbers are restricted to the integers,
which are the only numbers the program reads (`as_u64`) or writes. -/
inductive JsonValue where
  | null : JsonValue
  | bool (b : Bool) : JsonValue
  | num (n : Int) : JsonValue
  | str (s : String) : JsonValue
  | arr (xs : List JsonValue) : JsonValue
  | obj (fields : List (String × JsonValue)) : JsonValue
deriving Repr, BEq, Inhabited

/-- Model of `Value::get(key)` on an object (first field with the key). -/
def JsonValue.getKey : JsonValue → String → Option JsonValue
  | .obj fields, key => (fields.find? (fun p => p.1 == key)).map (fun p => p.2)
  | _, _ => none

/-- Model of `Value::as_u64` (integers below zero are rejected). -/
def JsonValue.as_u64 : JsonValue → Option Nat
  | .num n => if 0 ≤ n then some n.toNat else none
  | _ => none

/-- Model of `Value::as_str`. -/
def JsonValue.as_str : JsonValue → Option String
  | .str s => some s
  | _ => none

/-- Model of `Value::as_array`. -/
def JsonValue.as_array : JsonValue → Option (List JsonValue)
  | .arr xs => some xs
  | _ => none

/-- String escaping for JSON rendering (the only control character the
program ever places in a JSON string is the newline). -/
def jsonEscape (s : String) : String :=
  ((s.replace "\\" "\\\\").replace "\"" "\\\"").replace "\n" "\\n"

/-- Insert a rendered field into a key-sorted list (models the ordered
iteration of serde_json's default BTreeMap-backed object map). -/
def insertByKey (p : String × String) : List (String × String) → List (String × String)
  | [] => [p]
  | q :: rest => if p.1 < q.1 then p :: q :: rest else q :: insertByKey p rest

/-- Sort rendered fields by key, as serde_json's default map iterates. -/
def sortPairs : List (String × String) → List (String × String)
  | [] => []
  | p :: rest => insertByKey p (sortPairs rest)

/-- Join rendered JSON fragments with commas. -/
def joinComma : List String → String
  | [] => ""
  | [x] => x
  | x :: rest => x ++ "," ++ joinComma rest

mutual

/-- Model of `serde_json::to_string` on a `JsonValue`. -/
def JsonValue.render : JsonValue → String
  | .null => "null"
  | .bool b => if b then "true" else "false"
  | .num n => toString n
  | .str s => "\"" ++ jsonEscape s ++ "\""
  | .arr xs => "[" ++ joinComma (JsonValue.renderList xs) ++ "]"
  | .obj fields =>
      "\x7b" ++
        joinComma ((sortPairs (JsonValue.renderPairs fields)).map (fun p => p.2)) ++
        "\x7d"

/-- Renders each JSON value of a list. -/
def JsonValue.renderList : List JsonValue → List String
  | [] => []
  | x :: rest => JsonValue.render x :: JsonValue.renderList rest

/-- Renders each field of an object to a (key, rendered-field) pair. -/
def JsonValue.renderPairs : List (String × JsonValue) → List (String × String)
  | [] => []
  | p :: rest =>
      (p.1, "\"" ++ jsonEscape p.1 ++ "\":" ++ JsonValue.render p.2) ::
        JsonValue.renderPairs rest

end

/-! ## The grid world (`src/map.rs`) -/

/-- Model of `TileKind` from `src/map.rs`. -/
inductive TileKind where
  | Empty : TileKind
  | Wall : TileKind
  | Water : TileKind
  | Grass : TileKind
  | Sand : TileKind
  | Trail : TileKind
  | Tree : TileKind
  | Custom (code : Nat) : TileKind
deriving DecidableEq, Repr, Inhabited

/-- Model of `TileKind::is_traversable`. -/
def TileKind.is_traversable : TileKind → Bool
  | .Empty | .Grass | .Sand | .Trail => true
  | _ => false

/-- Model of `TileKind::is_blocking`. -/
def TileKind.is_blocking (t : TileKind) : Bool :=
  ! t.is_traversable

/-- Model of `TileKind::name` (note the source hides `Trail` as "grass"). -/
def TileKind.name : TileKind → String
  | .Empty => "empty"
  | .Wall => "wall"
  | .Water => "water"
  | .Grass => "grass"
  | .Sand => "sand"
  | .Trail => "grass"
  | .Tree => "tree"
  | .Custom _ => "custom"

/-- Model of `GridMap` from `src/map.rs`: row-major tile storage. -/
structure GridMap where
  width : Nat
  height : Nat
  tiles : List TileKind
deriving DecidableEq, Repr

/-- Model of `GridMap::new`. -/
def GridMap.new (width height : Nat) (fill : TileKind) : GridMap :=
  ⟨width, height, List.replicate (width * height) fill⟩

/-- Model of `GridMap::in_bounds`. -/
def GridMap.in_bounds (m : GridMap) (x y : Nat) : Bool :=
  x < m.width && y < m.height

/-- Model of `GridMap::idx`. -/
def GridMap.idx (m : GridMap) (x y : Nat) : Option Nat :=
  if m.in_bounds x y then some (y * m.width + x) else none

/-- Model of `GridMap::get` (the Rust index expression `&self.tiles[i]` is
total under the representation invariant; out-of-range reads are `none`). -/
def GridMap.get (m : GridMap) (x y : Nat) : Option TileKind :=
  (m.idx x y).bind (fun i => m.tiles[i]?)

/-- Model of `GridMap::set`; returns the written-flag and the updated map. -/
def GridMap.set (m : GridMap) (x y : Nat) (kind : TileKind) : Bool × GridMap :=
  match m.idx x y with
  | some i => (true, { m with tiles := m.tiles.set i kind })
  | none => (false, m)

/-- Model of `GridMap::is_traversable`. -/
def GridMap.is_traversable (m : GridMap) (x y : Nat) : Bool :=
  ((m.get x y).map TileKind.is_traversable).getD false

/-! ## Directions and movement (`src/agent.rs`) -/

/-- Model of `i32::saturating_sub`. -/
def i32SaturatingSub (a b : Int) : Int :=
  min (max (a - b) (-(2 ^ 31))) (2 ^ 31 - 1)

/-- Model of `Direction` from `src/agent.rs`. -/
inductive Direction where
  | Up : Direction
  | Down : Direction
  | Left : Direction
  | Right : Direction
deriving DecidableEq, Repr, Inhabited

/-- Model of `Direction::from_str`. -/
def Direction.from_str (s : String) : Except String Direction :=
  match s.toLower with
  | "up" => .ok .Up
  | "down" => .ok .Down
  | "left" => .ok .Left
  | "right" => .ok .Right
  | _ => .error ("Invalid direction: " ++ s)

/-- Model of `Direction::as_str`. -/
def Direction.as_str : Direction → String
  | .Up => "up"
  | .Down => "down"
  | .Left => "left"
  | .Right => "right"

/-- Model of `Direction::apply`: up/left use `saturating_sub` (which on `i32`
still goes to -1 from 0), down/right clamp with `min` against the far edge. -/
def Direction.apply (d : Direction) (x y map_width map_height : Int) : Int × Int :=
  match d with
  | .Up => (x, i32SaturatingSub y 1)
  | .Down => (x, min (y + 1) (map_height - 1))
  | .Left => (i32SaturatingSub x 1, y)
  | .Right => (min (x + 1) (map_width - 1), y)

/-- Model of `LogEntry` from `src/agent.rs`. -/
inductive LogEntry where
  | UserInstruction (s : String) : LogEntry
  | AgentThinking (s : String) : LogEntry
  | ToolCall (name args : String) : LogEntry
  | ToolProposal (name : String) (data : JsonValue) : LogEntry
  | ToolResult (name : String) (success : Bool) (message : String) : LogEntry
  | Movement (direction : String) (position : Nat × Nat) : LogEntry
  | Error (s : String) : LogEntry
  | Info (s : String) : LogEntry
deriving Repr, BEq, Inhabited

/-- Model of the `Agent` struct from `src/agent.rs` (LLM-transport fields the
modelled operations never touch are omitted). -/
structure Agent where
  id : Nat
  name : String
  x : Nat
  y : Nat
  pending_moves : List Direction
  movement_active : Bool
  next_step_at : Option Nat
  current_target : Option (Nat × Nat)
  movement_step_index : Nat
  total_movement_steps : Nat
  max_history_messages : Nat
  logs : List LogEntry
deriving Repr, Inhabited

/-- Model of `Agent::log` (appends one transcript entry). -/
def Agent.log (a : Agent) (e : LogEntry) : Agent :=
  { a with logs := a.logs ++ [e] }

/-- Model of `Agent::log_info`. -/
def Agent.log_info (a : Agent) (s : String) : Agent :=
  a.log (.Info s)

/-- Model of `Agent::set_pos`. -/
def Agent.set_pos (a : Agent) (x y : Nat) : Agent :=
  { a with x := x, y := y }

/-- Model of the outcome type `Result<(), String>` used for scheduled events
and movement steps. -/
inductive RunResult where
  | ok : RunResult
  | err (msg : String) : RunResult
deriving DecidableEq, Repr, Inhabited

/-- The long diagnostic transcript message logged when a step is blocked by
terrain, byte for byte as formatted in `Agent::execute_move_step`. -/
def blockedLogMsg (tile_type : String) (nx ny : Int) (ax ay : Nat)
    (d : Direction) : String :=
  "Movement blocked by " ++ tile_type ++ " tile at (" ++ toString nx ++ ", " ++
    toString ny ++ ")\nAgent position: (" ++ toString ax ++ ", " ++
    toString ay ++ ")\nAttempted move: " ++ d.as_str ++ " to (" ++
    toString nx ++ ", " ++ toString ny ++
    ")\nTraversable tiles: empty, grass, sand, trail\nBlocking tiles: wall, water, tree"

/-- Model of `Agent::execute_move_step` from `src/agent.rs`
(lines 790-847): bounds check on the applied direction, traversability
check, trail on the vacated cell, position update, movement log. -/
def Agent.execute_move_step (a : Agent) (direction : Direction)
    (m : GridMap) : RunResult × Agent × GridMap :=
  let x : Int := a.x
  let y : Int := a.y
  let w : Int := m.width
  let h : Int := m.height
  let p := direction.apply x y w h
  let nx := p.1
  let ny := p.2
  if nx < 0 || ny < 0 || nx ≥ w || ny ≥ h then
    (.err "ABORT: Movement blocked - edge of map",
     a.log (.Error "Movement blocked: edge of map"), m)
  else if ! m.is_traversable nx.toNat ny.toNat then
    let tile_type := ((m.get nx.toNat ny.toNat).map TileKind.name).getD "unknown"
    let err := "ABORT: Movement blocked by " ++ tile_type ++ " tile at (" ++
      toString nx ++ ", " ++ toString ny ++ ")"
    (.err err, a.log (.Error (blockedLogMsg tile_type nx ny a.x a.y direction)), m)
  else
    let m1 := (m.set a.x a.y .Trail).2
    let a1 := a.set_pos nx.toNat ny.toNat
    let a2 := a1.log (.Movement direction.as_str (a1.x, a1.y))
    (.ok, a2, m1)

/-! ## The event scheduler (`src/events.rs`) -/

/-- Model of `EventId` (a `u64` drawn from a monotonically increasing
counter; the counter lives in the queue state here, see `EventQueue.nextId`). -/
abbrev EventId := Nat

/-- Model of `EventStatus` from `src/events.rs`. -/
inductive EventStatus where
  | Pending : EventStatus
  | Processing : EventStatus
  | Completed : EventStatus
  | Failed (reason : String) : EventStatus
deriving DecidableEq, Repr, Inhabited

/-- Model of `Event` from `src/events.rs`. -/
inductive GameEvent where
  | AgentMove (agent_id : Nat) (direction : Direction) : GameEvent
  | Delay (ticks : Nat) : GameEvent
deriving DecidableEq, Repr, Inhabited

/-- Model of `ScheduledEvent` from `src/events.rs`. -/
structure ScheduledEvent where
  id : EventId
  event : GameEvent
  execute_at : Nat
  status : EventStatus
deriving DecidableEq, Repr, Inhabited

/-- Model of `ScheduledEvent::is_ready` (`Instant::now() >= self.execute_at`). -/
def ScheduledEvent.is_ready (e : ScheduledEvent) (now : Nat) : Bool :=
  e.execute_at ≤ now

/-- Model of `EventQueue` from `src/events.rs`. `nextId` models the global
`EVENT_COUNTER` that `EventId::new` draws from. -/
structure EventQueue where
  events : List ScheduledEvent
  completed : List (EventId × RunResult)
  nextId : Nat
deriving DecidableEq, Repr

/-- Model of `EventQueue::new` (with the id counter at an arbitrary start). -/
def EventQueue.new (firstId : Nat := 0) : EventQueue :=
  ⟨[], [], firstId⟩

/-- Model of `EventQueue::submit`: builds a `ScheduledEvent::new` with
`execute_at = now + delay`, status `Pending`, and a fresh id. -/
def EventQueue.submit (q : EventQueue) (now : Nat) (event : GameEvent)
    (delay : Nat) : EventId × EventQueue :=
  let scheduled : ScheduledEvent := ⟨q.nextId, event, now + delay, .Pending⟩
  (q.nextId, { q with events := q.events ++ [scheduled], nextId := q.nextId + 1 })

/-- Model of `EventQueue::submit_immediate`. -/
def EventQueue.submit_immediate (q : EventQueue) (now : Nat)
    (event : GameEvent) : EventId × EventQueue :=
  q.submit now event 0

/-- The loop body of `EventQueue::submit_sequence`, carrying the running
`current_delay` accumulator. -/
def submitSeqAux (q : EventQueue) (now : Nat) (events : List GameEvent)
    (current_delay delay_between : Nat) : List EventId × EventQueue :=
  match events with
  | [] => ([], q)
  | e :: rest =>
      let r1 := q.submit now e current_delay
      let r2 := submitSeqAux r1.2 now rest (current_delay + delay_between) delay_between
      (r1.1 :: r2.1, r2.2)

/-- Model of `EventQueue::submit_sequence`. -/
def EventQueue.submit_sequence (q : EventQueue) (now : Nat)
    (events : List GameEvent) (delay_between : Nat) : List EventId × EventQueue :=
  submitSeqAux q now events 0 delay_between

/-- Model of `EventQueue::cancel_events` (retain the non-matching ids). -/
def EventQueue.cancel_events (q : EventQueue) (event_ids : List EventId) : EventQueue :=
  { q with events := q.events.filter (fun e => ! event_ids.contains e.id) }

/-- Model of `EventQueue::cancel_agent_events`: retains an event iff it is
not an `AgentMove` of the given agent; note the retain predicate never looks
at the status field. -/
def EventQueue.cancel_agent_events (q : EventQueue) (agent_id : Nat) : EventQueue :=
  { q with events := q.events.filter (fun e =>
      match e.event with
      | .AgentMove aid _ => aid != agent_id
      | _ => true) }

/-- The scan of `EventQueue::pop_ready`: find the first ready `Pending`
event, remove it, mark it `Processing`, and push the marked copy at the back
of the queue. -/
def popReadyAux (now : Nat) : List ScheduledEvent →
    Option (ScheduledEvent × List ScheduledEvent)
  | [] => none
  | e :: rest =>
      if e.is_ready now && e.status == .Pending then
        let marked := { e with status := .Processing }
        some (marked, rest ++ [marked])
      else
        match popReadyAux now rest with
        | none => none
        | some (m, rest1) => some (m, e :: rest1)

/-- Model of `EventQueue::pop_ready`. -/
def EventQueue.pop_ready (q : EventQueue) (now : Nat) :
    Option ScheduledEvent × EventQueue :=
  match popReadyAux now q.events with
  | none => (none, q)
  | some (m, events1) => (some m, { q with events := events1 })

/-- Removal of the first event with a given id, as `EventQueue::complete`
does with `iter().position` followed by `remove(pos)`. -/
def removeFirstById : List ScheduledEvent → EventId → List ScheduledEvent
  | [], _ => []
  | e :: rest, i => if e.id = i then rest else e :: removeFirstById rest i

/-- Model of `EventQueue::complete`: drop the first queue entry with the id
(if any) and unconditionally append `(id, result)` to the completed log. -/
def EventQueue.complete (q : EventQueue) (id : EventId) (result : RunResult) :
    EventQueue :=
  { q with
      events := removeFirstById q.events id,
      completed := q.completed ++ [(id, result)] }

/-- Model of `EventQueue::is_completed`. -/
def EventQueue.is_completed (q : EventQueue) (id : EventId) : Option RunResult :=
  ((q.completed.find? (fun c => c.1 == id)).map (fun c => c.2))

/-- Model of `EventQueue::pending_count` (the length of the live queue). -/
def EventQueue.pending_count (q : EventQueue) : Nat :=
  q.events.length

/-- Model of `EventQueue::clear`. -/
def EventQueue.clear (q : EventQueue) : EventQueue :=
  { q with events := [], completed := [] }

/-- Model of `PendingToolExecution` from `src/events.rs`. -/
structure PendingToolExecution where
  tool_call_id : String
  tool_name : String
  initial_result : String
  event_ids : List EventId
  created_at : Nat
deriving DecidableEq, Repr

/-- Model of `PendingToolExecution::is_complete`: true iff no live queue
entry carries one of this execution's action ids. -/
def PendingToolExecution.is_complete (p : PendingToolExecution)
    (q : EventQueue) : Bool :=
  ! q.events.any (fun s => p.event_ids.contains s.id)

/-- Model of `PendingToolExecution::get_event_results`. -/
def PendingToolExecution.get_event_results (p : PendingToolExecution)
    (q : EventQueue) : List (EventId × RunResult) :=
  p.event_ids.filterMap (fun eid =>
    (q.completed.find? (fun c => c.1 == eid)).map (fun c => (eid, c.2)))

/-! ## Stream accumulation in `Agent::execute_instruction` (`src/agent.rs`) -/

/-- Model of `OpenRouterEvent` from `src/openrouter.rs`. -/
inductive OpenRouterEvent where
  | Content (s : String) : OpenRouterEvent
  | ToolCallDelta (name : Option String) (arguments_delta : Option String) :
      OpenRouterEvent
deriving DecidableEq, Repr

/-- The three accumulation buffers of the streaming loop in
`Agent::execute_instruction`. -/
structure StreamAccum where
  name_buf : Option String
  args_buf : String
  content_buf : String
deriving DecidableEq, Repr

/-- One iteration of the `while let Some(evt) = stream.next()` loop: content
is appended, a delta name replaces `name_buf`, a delta argument fragment is
appended to `args_buf`, and a stream error leaves the buffers alone. -/
def accumStep (st : StreamAccum) (evt : Except String OpenRouterEvent) :
    StreamAccum :=
  match evt with
  | .ok (.Content c) => { st with content_buf := st.content_buf ++ c }
  | .ok (.ToolCallDelta name arguments_delta) =>
      let st1 := match name with
        | some n => { st with name_buf := some n }
        | none => st
      match arguments_delta with
        | some a => { st1 with args_buf := st1.args_buf ++ a }
        | none => st1
  | .error _ => st

/-- The whole accumulation loop over the finite stream of a round, starting
from empty buffers. The pair `(name_buf, args_buf)` of the final state is
what the round dispatches as its tool call (after JSON parsing and
`agent_id` injection). -/
def accumStream (evts : List (Except String OpenRouterEvent)) : StreamAccum :=
  evts.foldl accumStep ⟨none, "", ""⟩

/-! ## Tool handlers (`src/agent.rs`, `Agent::handle_tool_call` and helpers) -/

/-- The `(x, y)` coordinate-pair extraction used for `area` and `target`
arguments (`a.get("x")?.as_u64()? as usize` twice). -/
def parseCoordPair (v : JsonValue) : Option (Nat × Nat) :=
  match (v.getKey "x").bind JsonValue.as_u64, (v.getKey "y").bind JsonValue.as_u64 with
  | some x, some y => some (x, y)
  | _, _ => none

/-- Model of `Agent::map_state_json_with_params`: computes view bounds
(area mode, 7x7 around a centre, or visibility mode around the agent),
gathers tile-name rows, builds the ASCII minimap and renders the JSON
object. Rust `usize` subtraction is modelled by truncated `Nat`
subtraction. -/
def Agent.map_state_json_with_params (a : Agent) (m : GridMap)
    (area : Option (Nat × Nat)) (visibility : Option Nat) : String :=
  let visibility := min (max (visibility.getD 5) 1) 10
  let vb : Nat × Nat × Nat × Nat :=
    match area with
    | some (cx, cy) =>
        let half : Int := 3
        let start_x := (max ((cx : Int) - half) 0).toNat
        let start_y := (max ((cy : Int) - half) 0).toNat
        let end_x := min ((cx : Int) + half + 1).toNat m.width
        let end_y := min ((cy : Int) + half + 1).toNat m.height
        (start_x, start_y, end_x - start_x, end_y - start_y)
    | none =>
        let start_x := (max ((a.x : Int) - (visibility : Int)) 0).toNat
        let start_y := (max ((a.y : Int) - (visibility : Int)) 0).toNat
        let end_x := min ((a.x : Int) + (visibility : Int) + 1).toNat m.width
        let end_y := min ((a.y : Int) + (visibility : Int) + 1).toNat m.height
        (start_x, start_y, end_x - start_x, end_y - start_y)
  let view_x := vb.1
  let view_y := vb.2.1
  let view_width := vb.2.2.1
  let view_height := vb.2.2.2
  let tileName := fun (x y : Nat) => ((m.get x y).map TileKind.name).getD "empty"
  let rows : List (List String) :=
    (List.range' view_y view_height).map (fun y =>
      (List.range' view_x view_width).map (fun x =>
        if x == a.x && y == a.y then "@" ++ tileName x y else tileName x y))
  let tileChar := fun (x y : Nat) =>
    if x == a.x && y == a.y then "@"
    else
      match m.get x y with
      | some .Empty => "."
      | some .Grass => ","
      | some .Water => "~"
      | some .Sand => "s"
      | some .Wall => "#"
      | some .Trail => "*"
      | some .Tree => "T"
      | some (.Custom _) => "?"
      | none => " "
  let grid := String.join ((List.range' view_y view_height).map (fun y =>
      String.join ((List.range' view_x view_width).map (fun x => tileChar x y)) ++ "\n"))
  let minimap :=
    "Map View (" ++ toString view_width ++ "x" ++ toString view_height ++
      " area at (" ++ toString view_x ++ ", " ++ toString view_y ++ "))\n" ++
    "Agent at (" ++ toString a.x ++ ", " ++ toString a.y ++ ") in full map (" ++
      toString m.width ++ "x" ++ toString m.height ++ ")\n" ++
    (match area with
     | some (cx, cy) => "Area center: (" ++ toString cx ++ ", " ++ toString cy ++ ")\n"
     | none => "") ++
    "Visibility used: " ++ toString visibility ++ "\n\n" ++
    grid ++
    "\nLegend: @=agent, .=empty, ,=grass, ~=water, #=wall, T=tree, s=sand, *=trail\n"
  let base : List (String × JsonValue) :=
    [("view_bounds", .obj [("x", .num view_x), ("y", .num view_y),
        ("width", .num view_width), ("height", .num view_height)]),
     ("full_map_size", .obj [("width", .num m.width), ("height", .num m.height)]),
     ("tiles", .arr (rows.map (fun r => .arr (r.map JsonValue.str)))),
     ("agent_position", .obj [("x", .num a.x), ("y", .num a.y)])]
  let withArea := match area with
    | some (cx, cy) => base ++ [("area_center", .obj [("x", .num cx), ("y", .num cy)])]
    | none => base
  let fields := withArea ++
    [("visibility_used", .num visibility), ("_minimap", .str minimap)]
  (JsonValue.obj fields).render

/-- Model of `Agent::map_state_json`. -/
def Agent.map_state_json (a : Agent) (m : GridMap) : String :=
  a.map_state_json_with_params m none none

/-- Model of `Agent::handle_get_position_tool`. -/
def Agent.handle_get_position_tool (a : Agent) : Except String String :=
  .ok (JsonValue.render (.obj [("x", .num a.x), ("y", .num a.y)]))

/-- Model of `Agent::handle_get_available_directions_tool`. -/
def Agent.handle_get_available_directions_tool (a : Agent) (m : GridMap) :
    Except String String :=
  let dirs := [Direction.Up, Direction.Down, Direction.Left, Direction.Right]
  let valid := dirs.filterMap (fun d =>
    let p := d.apply (a.x : Int) (a.y : Int) (m.width : Int) (m.height : Int)
    if decide (0 ≤ p.1) && decide (0 ≤ p.2) && decide (p.1 < (m.width : Int)) &&
        decide (p.2 < (m.height : Int)) && m.is_traversable p.1.toNat p.2.toNat
    then some d.as_str else none)
  .ok (JsonValue.render (.obj
    [("position", .obj [("x", .num a.x), ("y", .num a.y)]),
     ("available_directions", .arr (valid.map JsonValue.str))]))

/-- Model of `Agent::handle_get_bearings_tool` (records the optional target,
reports blocking/open directions and advisory text). -/
def Agent.handle_get_bearings_tool (a : Agent) (args : JsonValue) (m : GridMap) :
    Except String String × Agent :=
  let target := (args.getKey "target").bind parseCoordPair
  let a1 := { a with current_target := target }
  let dirPairs := [(Direction.Up, "north"), (Direction.Down, "south"),
    (Direction.Left, "west"), (Direction.Right, "east")]
  let bo := dirPairs.foldl (fun (acc : List JsonValue × List String) dp =>
    let p := dp.1.apply (a1.x : Int) (a1.y : Int) (m.width : Int) (m.height : Int)
    if decide (p.1 < 0) || decide (p.2 < 0) || decide (p.1 ≥ (m.width : Int)) ||
        decide (p.2 ≥ (m.height : Int)) then
      (acc.1 ++ [.obj [("direction", .str dp.2), ("reason", .str "map_edge")]], acc.2)
    else if ! m.is_traversable p.1.toNat p.2.toNat then
      let tile := ((m.get p.1.toNat p.2.toNat).map TileKind.name).getD "unknown"
      (acc.1 ++ [.obj [("direction", .str dp.2), ("reason", .str "obstacle"),
        ("tile", .str tile)]], acc.2)
    else (acc.1, acc.2 ++ [dp.2])) ([], [])
  let blocking := bo.1
  let openDirs := bo.2
  let baseFields : List (String × JsonValue) :=
    [("position", .obj [("x", .num a1.x), ("y", .num a1.y)])]
  let fieldsT := match target with
    | some (tx, ty) =>
        let dx : Int := (tx : Int) - (a1.x : Int)
        let dy : Int := (ty : Int) - (a1.y : Int)
        baseFields ++ [("target", .obj [("x", .num tx), ("y", .num ty),
          ("distance", .num (|dx| + |dy|)), ("delta_x", .num dx), ("delta_y", .num dy)])]
    | none => baseFields
  let fieldsB := fieldsT ++ [("blocking_directions", .arr blocking),
    ("open_directions", .arr (openDirs.map JsonValue.str))]
  let advice1 : List String :=
    if openDirs.isEmpty then
      ["You\x27re completely blocked! Try using \x27get_map_state\x27 to see the bigger picture."]
    else
      ["You have open directions available."]
  let advice2 :=
    if target.isSome && ! openDirs.isEmpty then
      advice1 ++ ["If you\x27re stuck, try picking a different target coordinate with the \x27move_agent\x27 tool."]
    else if target.isNone then
      advice1 ++ ["Consider specifying a target coordinate when moving to get better navigation hints."]
    else advice1
  let fieldsA := fieldsB ++ [("advice", .arr (advice2.map JsonValue.str))]
  (.ok (JsonValue.render (.obj fieldsA)), a1)

/-- The per-step parsing loop of `Agent::handle_move_agent_tool` (first
failure wins, as the Rust `?` operator propagates). -/
def parseDirections : List JsonValue → Except String (List Direction)
  | [] => .ok []
  | s :: rest =>
      match s.as_str with
      | none => .error "step must be string"
      | some str =>
          match Direction.from_str str with
          | .error e => .error e
          | .ok d =>
              match parseDirections rest with
              | .error e => .error e
              | .ok ds => .ok (d :: ds)

/-- Model of `Agent::handle_move_agent_tool`: validates 1..=5 steps, records
the optional target (before parsing the steps, as the source does), queues
the directions for event submission and logs the preparation info. -/
def Agent.handle_move_agent_tool (a : Agent) (now : Nat) (args : JsonValue)
    (_m : GridMap) : Except String String × Agent :=
  match (args.getKey "steps").bind JsonValue.as_array with
  | none => (.error "missing steps", a)
  | some steps =>
    if steps.isEmpty || decide (steps.length > 5) then (.error "steps must be 1..=5", a)
    else
      let a1 := { a with current_target := (args.getKey "target").bind parseCoordPair }
      match parseDirections steps with
      | .error e => (.error e, a1)
      | .ok directions =>
          let a2 := { a1 with
            pending_moves := directions,
            movement_active := true,
            next_step_at := some now,
            total_movement_steps := directions.length,
            movement_step_index := 0 }
          let target_info := match a2.current_target with
            | some (tx, ty) =>
                " towards target (" ++ toString tx ++ ", " ++ toString ty ++ ")"
            | none => ""
          let a3 := a2.log_info ("Preparing " ++ toString a2.pending_moves.length ++
            " movement steps" ++ target_info ++ " starting at (" ++ toString a2.x ++
            ", " ++ toString a2.y ++ ")")
          (.ok "", a3)

/-- Model of `Agent::take_pending_moves`. -/
def Agent.take_pending_moves (a : Agent) : List Direction × Agent :=
  (a.pending_moves,
   { a with pending_moves := [], movement_active := false, next_step_at := none,
            total_movement_steps := 0, movement_step_index := 0 })

/-- Model of `Agent::handle_tool_call` (`src/agent.rs` lines 704-786): the
two read-only meta tools return before any subject-identity check; every
other tool extracts `agent_id` (missing is an error), rejects a mismatch
with a logged validation error, and otherwise dispatches and logs the
result. The `u64`-to-`u32` cast of the extracted id is modelled by the
reduction modulo `2 ^ 32`. -/
def Agent.handle_tool_call (a : Agent) (now : Nat) (name : String)
    (args : JsonValue) (m : GridMap) : Except String String × Agent × GridMap :=
  if name == "get_map_state" then
    let area := (args.getKey "area").bind parseCoordPair
    let visibility := (args.getKey "visibility").bind JsonValue.as_u64
    (.ok (a.map_state_json_with_params m area visibility), a, m)
  else if name == "think" then
    let thoughts := ((args.getKey "thoughts").bind JsonValue.as_str).getD "(empty thoughts)"
    (.ok ("Recorded thoughts: " ++ thoughts), a, m)
  else
    match (args.getKey "agent_id").bind JsonValue.as_u64 with
    | none => (.error "missing agent_id", a, m)
    | some got =>
      let agent_id_val := got % 2 ^ 32
      if agent_id_val ≠ a.id then
        let err := "agent id mismatch: expected " ++ toString a.id ++ ", got " ++
          toString agent_id_val
        (.error err, a.log (.ToolResult name false err), m)
      else
        let r : Except String String × Agent :=
          if name == "move_agent" then a.handle_move_agent_tool now args m
          else if name == "get_position" then (a.handle_get_position_tool, a)
          else if name == "get_available_directions" then
            (a.handle_get_available_directions_tool m, a)
          else if name == "get_bearings" then a.handle_get_bearings_tool args m
          else (.error ("unknown tool: " ++ name), a)
        match r with
        | (.ok msg, a1) => (.ok msg, a1.log (.ToolResult name true msg), m)
        | (.error e, a1) => (.error e, a1.log (.ToolResult name false e), m)

/-! ## Definitions used by the claim statements -/

/-- The subject predicate of `cancel_agent_events`: does this event belong
to the given agent? -/
def GameEvent.matchesAgent : GameEvent → Nat → Bool
  | .AgentMove aid _, agent_id => aid == agent_id
  | _, _ => false

/-- Well-formedness of a scheduler state, as maintained by the program: live
ids are pairwise distinct, disjoint from the completed log, and below the id
counter, and logged ids are below the counter as well. -/
def EventQueue.WF (q : EventQueue) : Prop :=
  (q.events.map (fun e => e.id)).Nodup ∧
  (∀ i ∈ q.events.map (fun e => e.id), ∀ c ∈ q.completed, i ≠ c.1) ∧
  (∀ i ∈ q.events.map (fun e => e.id), i < q.nextId) ∧
  (∀ c ∈ q.completed, c.1 < q.nextId)

/-- Spec-side description of a round's honored tool name: the name carried
by the last tool-call delta of the stream that carries one. -/
def lastDeltaName (evts : List (Except String OpenRouterEvent)) : Option String :=
  (evts.filterMap (fun e =>
    match e with
    | .ok (.ToolCallDelta (some n) _) => some n
    | _ => none)).getLast?

/-- Spec-side description of the accumulated argument buffer: the
concatenation, in stream order, of every argument fragment of the round. -/
def concatDeltaArgs (evts : List (Except String OpenRouterEvent)) : String :=
  String.join (evts.filterMap (fun e =>
    match e with
    | .ok (.ToolCallDelta _ (some s)) => some s
    | _ => none))

/-- A 3x3 all-grass world, used for the concrete scenarios. -/
def mapFix : GridMap := GridMap.new 3 3 .Grass

/-- A subject with id 1 standing at the top-left corner of the world. -/
def agentFix : Agent := ⟨1, "r2", 0, 0, [], false, none, none, 0, 0, 50, []⟩

/-- The same subject standing on the bottom boundary row of `mapFix`. -/
def agentBottom : Agent := { agentFix with x := 0, y := 2 }

/-- A queue holding one ready pending delay action (id 0). -/
def qFix : EventQueue := ⟨[⟨0, .Delay 1, 0, .Pending⟩], [], 1⟩

/-- A queue whose only action is already Processing and belongs to agent 1. -/
def qProcessing : EventQueue := ⟨[⟨0, .AgentMove 1 .Up, 0, .Processing⟩], [], 1⟩

/-- A three-step movement sequence for agent 1 mid-flight: step 0 is
Processing (it is about to fail), steps 1 and 2 are still Pending. -/
def qMidSequence : EventQueue :=
  ⟨[⟨0, .AgentMove 1 .Up, 0, .Processing⟩,
    ⟨1, .AgentMove 1 .Up, 7, .Pending⟩,
    ⟨2, .AgentMove 1 .Up, 14, .Pending⟩], [], 3⟩

/-- The pending tool execution tracking the three actions of `qMidSequence`. -/
def pendingFix : PendingToolExecution := ⟨"call_1", "move_agent", "", [0, 1, 2], 0⟩

/-- The two-fragment round of Scenario C: fragment one is `("a", "x")`,
fragment two is `("b", "y")`; both fully accumulated before closure. -/
def twoFragmentRound : List (Except String OpenRouterEvent) :=
  [.ok (.ToolCallDelta (some "a") (some "x")),
   .ok (.ToolCallDelta (some "b") (some "y"))]

/-! ## Helper lemmas about the scheduler operations -/

theorem removeFirstById_of_not_mem {l : List ScheduledEvent} {i : EventId}
    (h : i ∉ l.map (fun e => e.id)) : removeFirstById l i = l := by
  induction l with
  | nil => rfl
  | cons e rest ih =>
    simp only [List.map_cons, List.mem_cons, not_or] at h
    rw [removeFirstById, if_neg (fun hc => h.1 hc.symm), ih h.2]

theorem removeFirstById_id_not_mem {l : List ScheduledEvent} {i : EventId}
    (h : (l.map (fun e => e.id)).Nodup) :
    i ∉ (removeFirstById l i).map (fun e => e.id) := by
  induction l with
  | nil => simp [removeFirstById]
  | cons e rest ih =>
    simp only [List.map_cons, List.nodup_cons] at h
    rw [removeFirstById]
    by_cases he : e.id = i
    · rw [if_pos he]
      rw [he] at h
      exact h.1
    · rw [if_neg he]
      simp only [List.map_cons, List.mem_cons, not_or]
      exact ⟨fun hc => he hc.symm, ih h.2⟩

theorem removeFirstById_sublist (l : List ScheduledEvent) (i : EventId) :
    (removeFirstById l i).Sublist l := by
  induction l with
  | nil => simp [removeFirstById]
  | cons e rest ih =>
    rw [removeFirstById]
    by_cases he : e.id = i
    · rw [if_pos he]
      exact List.sublist_cons_self e rest
    · rw [if_neg he]
      exact ih.cons₂ e

theorem popReadyAux_some {now : Nat} {l : List ScheduledEvent}
    {m : ScheduledEvent} {l' : List ScheduledEvent}
    (h : popReadyAux now l = some (m, l')) :
    ∃ e₀, e₀ ∈ l ∧ e₀.status = .Pending ∧ e₀.execute_at ≤ now ∧
      m = { e₀ with status := .Processing } ∧ m ∈ l' ∧
      (l'.map (fun e => e.id)).Perm (l.map (fun e => e.id)) ∧
      l'.length = l.length := by
  induction l generalizing l' with
  | nil => simp [popReadyAux] at h
  | cons e rest ih =>
    rw [popReadyAux] at h
    by_cases hc : (e.is_ready now && e.status == EventStatus.Pending) = true
    · rw [if_pos hc] at h
      obtain ⟨hm, hl⟩ := Prod.mk.injEq .. ▸ (Option.some.injEq .. ▸ h)
      refine ⟨e, List.mem_cons_self e rest, ?_, ?_, hm.symm, ?_, ?_, ?_⟩
      · exact beq_iff_eq.mp (Bool.and_eq_true_iff.mp hc).2
      · have := (Bool.and_eq_true_iff.mp hc).1
        simpa [ScheduledEvent.is_ready] using this
      · rw [← hl, ← hm]
        exact List.mem_append_right rest (List.mem_singleton.mpr rfl)
      · rw [← hl]
        simp [List.perm_append_singleton]
      · rw [← hl]
        simp
    · rw [if_neg hc] at h
      cases hrec : popReadyAux now rest with
      | none => rw [hrec] at h; exact absurd h (by simp)
      | some p =>
        rw [hrec] at h
        obtain ⟨m₀, rest₁⟩ := p
        obtain ⟨hm, hl⟩ := Prod.mk.injEq .. ▸ (Option.some.injEq .. ▸ h)
        subst hm
        obtain ⟨e₀, he₀, hst, hex, hmm, hmem, hperm, hlen⟩ := ih hrec
        refine ⟨e₀, List.mem_cons_of_mem e he₀, hst, hex, hmm, ?_, ?_, ?_⟩
        · rw [← hl]
          exact List.mem_cons_of_mem e hmem
        · rw [← hl]
          simpa using hperm.cons e.id
        · rw [← hl]
          simpa using hlen

theorem stringJoin_append (l1 l2 : List String) :
    String.join (l1 ++ l2) = String.join l1 ++ String.join l2 := by
  apply String.ext
  simp

theorem GridMap.set_width (m : GridMap) (x y : Nat) (k : TileKind) :
    ((m.set x y k).2).width = m.width := by
  unfold GridMap.set
  cases m.idx x y <;> rfl

theorem GridMap.set_height (m : GridMap) (x y : Nat) (k : TileKind) :
    ((m.set x y k).2).height = m.height := by
  unfold GridMap.set
  cases m.idx x y <;> rfl

theorem gridIndexInj {w x x' y y' : Nat} (hx : x < w) (hx' : x' < w)
    (h : y * w + x = y' * w + x') : x = x' ∧ y = y' := by
  have hxm : (y * w + x) % w = x := by
    rw [Nat.mul_comm, Nat.mul_add_mod, Nat.mod_eq_of_lt hx]
  have hxm' : (y' * w + x') % w = x' := by
    rw [Nat.mul_comm, Nat.mul_add_mod, Nat.mod_eq_of_lt hx']
  have hxx : x = x' := by rw [← hxm, ← hxm', h]
  refine ⟨hxx, ?_⟩
  have hw : 0 < w := Nat.lt_of_le_of_lt (Nat.zero_le x) hx
  have : y * w = y' * w := by omega
  exact Nat.eq_of_mul_eq_mul_right hw this

/-! ## Claim C2: duplicate completion -/

/-- Claim C2, counterexample: completing id 0 twice appends two entries to
the outcome log, so the log does not contain exactly one entry for the id
and the second call is not a no-op. -/
theorem c2_duplicate_complete_counterexample :
    ((qFix.complete 0 .ok).complete 0 .ok).completed = [(0, .ok), (0, .ok)] ∧
    (((qFix.complete 0 .ok).complete 0 .ok).completed.filter
      (fun c => c.1 == 0)).length ≠ 1 := by
  exact ⟨rfl, by decide⟩

/-- Claim C2 as amended: for a queue with distinct live ids, a second
`complete` call for the same id is a no-op on the live queue (the id is
already gone), but every call unconditionally appends to the outcome log,
so two calls leave two log entries for the id. -/
theorem c2_complete_twice_amended (q : EventQueue) (i : EventId)
    (r r' : RunResult) (h : (q.events.map (fun e => e.id)).Nodup) :
    ((q.complete i r).complete i r').events = (q.complete i r).events ∧
    ((q.complete i r).complete i r').completed = q.completed ++ [(i, r), (i, r')] := by
  constructor
  · show removeFirstById (removeFirstById q.events i) i = removeFirstById q.events i
    exact removeFirstById_of_not_mem (removeFirstById_id_not_mem h)
  · show (q.completed ++ [(i, r)]) ++ [(i, r')] = q.completed ++ [(i, r), (i, r')]
    simp

/-- Witness for the amended C2 at the concrete one-event queue. -/
theorem c2_complete_twice_amended_witness :
    (qFix.events.map (fun e => e.id)).Nodup ∧
    (((qFix.complete 0 .ok).complete 0 (.err "x")).events =
        (qFix.complete 0 .ok).events ∧
     ((qFix.complete 0 .ok).complete 0 (.err "x")).completed =
        qFix.completed ++ [(0, .ok), (0, .err "x")]) :=
  ⟨by decide, c2_complete_twice_amended qFix 0 .ok (.err "x") (by decide)⟩

/-! ## Claim C3: cancellation by subject -/

/-- Claim C3, counterexample: the only queue entry is Processing and belongs
to agent 1, and `cancel_agent_events 1` removes it — a Processing action
does not survive a cancellation for its subject. -/
theorem c3_processing_cancel_counterexample :
    qProcessing.events.map (fun e => e.status) = [.Processing] ∧
    (qProcessing.cancel_agent_events 1).events = [] :=
  ⟨rfl, rfl⟩

/-- Claim C3 as amended: cancellation-by-subject removes exactly the live
actions whose event matches the subject, regardless of their status
(Pending and Processing alike); the completed-outcome log and the id
counter are untouched. -/
theorem c3_cancel_by_subject_amended (q : EventQueue) (aid : Nat) :
    (∀ e : ScheduledEvent, e ∈ (q.cancel_agent_events aid).events ↔
      e ∈ q.events ∧ e.event.matchesAgent aid = false) ∧
    (q.cancel_agent_events aid).completed = q.completed ∧
    (q.cancel_agent_events aid).nextId = q.nextId := by
  refine ⟨fun e => ?_, rfl, rfl⟩
  show e ∈ q.events.filter _ ↔ _
  rw [List.mem_filter]
  cases he : e.event with
  | AgentMove a d => simp [GameEvent.matchesAgent, bne]
  | Delay t => simp [GameEvent.matchesAgent]

/-! ## Claim C4: last tool-call fragment -/

/-- Claim C4, counterexample: with the two fully-accumulated fragments
`("a", "x")` then `("b", "y")` in one round, the honored name is the last
fragment's, but the accumulated argument buffer is the concatenation "xy"
of both fragments, not only the last fragment's "y". -/
theorem c4_last_fragment_counterexample :
    (accumStream twoFragmentRound).name_buf = some "b" ∧
    (accumStream twoFragmentRound).args_buf = "xy" ∧
    (accumStream twoFragmentRound).args_buf ≠ "y" :=
  ⟨rfl, rfl, by decide⟩

/-- Claim C4 as amended: over any round, the dispatched tool name is the
last name seen in a tool-call delta, while the dispatched argument buffer
is the concatenation of all argument fragments of the round in stream
order — earlier fragments' argument text is retained, not discarded. -/
theorem c4_accumulation_amended (evts : List (Except String OpenRouterEvent)) :
    (accumStream evts).name_buf = lastDeltaName evts ∧
    (accumStream evts).args_buf = concatDeltaArgs evts := by
  induction evts using List.reverseRecOn with
  | nil => exact ⟨rfl, rfl⟩
  | append_singleton l e ih =>
    have hstep : accumStream (l ++ [e]) = accumStep (accumStream l) e := by
      simp [accumStream, List.foldl_append]
    rcases e with s | oe
    · rw [hstep]
      simpa [accumStep, lastDeltaName, concatDeltaArgs, List.filterMap_append,
        stringJoin_append] using ih
    · rcases oe with c | ⟨n, a⟩
      · rw [hstep]
        simpa [accumStep, lastDeltaName, concatDeltaArgs, List.filterMap_append,
          stringJoin_append] using ih
      · rcases n with _ | n <;> rcases a with _ | a <;> rw [hstep] <;>
          simp [accumStep, lastDeltaName, concatDeltaArgs, List.filterMap_append,
            stringJoin_append, List.getLast?_concat, ih.1, ih.2, String.append_empty,
            String.empty_append, String.join]

/-! ## Claim C1: edge-of-map behaviour on boundary cells -/

/-- Claim C1, counterexample: the subject stands on the bottom boundary row
(0,2) of a 3x3 grass world and issues a step past that boundary (down).
The code clamps the candidate to the current cell, reports the move as a
success, and changes the cell contents (a trail is laid on (0,2)) — it does
not fail with an edge-of-map outcome. -/
theorem c1_boundary_clamp_counterexample :
    (agentBottom.execute_move_step .Down mapFix).1 = .ok ∧
    (agentBottom.execute_move_step .Down mapFix).2.1.x = 0 ∧
    (agentBottom.execute_move_step .Down mapFix).2.1.y = 2 ∧
    (agentBottom.execute_move_step .Down mapFix).2.2.get 0 2 = some .Trail ∧
    mapFix.get 0 2 = some .Grass := by
  refine ⟨?_, ?_, ?_, ?_, ?_⟩ <;> decide

/-- Claim C1 as amended: only the top and left map edges behave as the claim
states. A subject at `y = 0` issuing `up` (or at `x = 0` issuing `left`)
fails with the edge-of-map outcome carrying the ABORT marker, with the
position, the world, and everything except the appended error transcript
entry unchanged. (At the bottom and right edges the direction is clamped
onto the current cell and reported as a success, per the counterexample.) -/
theorem c1_edge_of_map_amended (a : Agent) (m : GridMap) :
    (a.y = 0 → a.execute_move_step .Up m =
      (.err "ABORT: Movement blocked - edge of map",
       a.log (.Error "Movement blocked: edge of map"), m)) ∧
    (a.x = 0 → a.execute_move_step .Left m =
      (.err "ABORT: Movement blocked - edge of map",
       a.log (.Error "Movement blocked: edge of map"), m)) := by
  constructor
  · intro hy
    have hsat : i32SaturatingSub (0 : Int) 1 = -1 := by
      unfold i32SaturatingSub
      norm_num
    unfold Agent.execute_move_step
    simp [Direction.apply, hy, hsat]
  · intro hx
    have hsat : i32SaturatingSub (0 : Int) 1 = -1 := by
      unfold i32SaturatingSub
      norm_num
    unfold Agent.execute_move_step
    simp [Direction.apply, hx, hsat]

/-- Witness for the amended C1: the subject at (0,0) issuing `up` hits the
edge-of-map abort exactly as stated. -/
theorem c1_edge_of_map_amended_witness :
    agentFix.y = 0 ∧
    agentFix.execute_move_step .Up mapFix =
      (.err "ABORT: Movement blocked - edge of map",
       agentFix.log (.Error "Movement blocked: edge of map"), mapFix) :=
  ⟨rfl, (c1_edge_of_map_amended agentFix mapFix).1 rfl⟩

/-! ## Claim C5: movement-step safety -/

theorem GridMap.get_isSome_of_traversable {m : GridMap} {x y : Nat}
    (h : m.is_traversable x y = true) :
    ∃ t, m.get x y = some t ∧ t.is_traversable = true := by
  unfold GridMap.is_traversable at h
  cases hg : m.get x y with
  | none => rw [hg] at h; simp at h
  | some t =>
    rw [hg] at h
    exact ⟨t, rfl, by simpa using h⟩

theorem GridMap.in_bounds_of_get_isSome {m : GridMap} {x y : Nat}
    (h : (m.get x y).isSome = true) : m.in_bounds x y = true := by
  unfold GridMap.get GridMap.idx at h
  by_cases hb : m.in_bounds x y = true
  · exact hb
  · rw [if_neg hb] at h
    simp at h

theorem GridMap.get_set_self {m : GridMap} {x y : Nat} {k : TileKind}
    (h : (m.get x y).isSome = true) : ((m.set x y k).2).get x y = some k := by
  have hb := GridMap.in_bounds_of_get_isSome h
  unfold GridMap.get GridMap.idx at h ⊢
  rw [if_pos hb] at h
  have hlen : y * m.width + x < m.tiles.length := by
    simp only [Option.some_bind] at h
    rcases Nat.lt_or_ge (y * m.width + x) m.tiles.length with h' | h'
    · exact h'
    · rw [List.getElem?_eq_none h'] at h; simp at h
  unfold GridMap.set GridMap.idx
  rw [if_pos hb]
  simp only [Option.some_bind]
  rw [if_pos (by simpa [GridMap.in_bounds] using hb)]
  simp only [Option.some_bind]
  exact List.getElem?_set_eq_of_lt k hlen

theorem GridMap.get_set_other {m : GridMap} {x y x' y' : Nat} {k : TileKind}
    (hne : ¬(x' = x ∧ y' = y)) (hb' : m.in_bounds x' y' = true) :
    ((m.set x y k).2).get x' y' = m.get x' y' := by
  unfold GridMap.set
  cases hi : m.idx x y with
  | none => rfl
  | some i =>
    unfold GridMap.idx at hi
    by_cases hb : m.in_bounds x y = true
    · rw [if_pos hb] at hi
      have hi' : i = y * m.width + x := (Option.some.injEq .. ▸ hi).symm
      unfold GridMap.get GridMap.idx
      rw [if_pos (by simpa [GridMap.in_bounds] using hb')]
      rw [if_pos hb']
      simp only [Option.some_bind]
      have hxw : x < m.width := by
        have h2 : x < m.width ∧ y < m.height := by simpa [GridMap.in_bounds] using hb
        exact h2.1
      have hxw' : x' < m.width := by
        have h2 : x' < m.width ∧ y' < m.height := by simpa [GridMap.in_bounds] using hb'
        exact h2.1
      have hneidx : i ≠ y' * m.width + x' := by
        intro hc
        rw [hi'] at hc
        obtain ⟨hxx, hyy⟩ := gridIndexInj hxw hxw' hc
        exact hne ⟨hxx.symm, hyy.symm⟩
      exact List.getElem?_set_ne hneidx
    · rw [if_neg hb] at hi
      exact absurd hi (by simp)

/-- Claim C5: a movement step that reports success leaves the subject
in-bounds and on a traversable cell of the updated world; a movement step
that reports any failure leaves the subject's position unchanged. -/
theorem c5_move_step_safety (a : Agent) (d : Direction) (m : GridMap) :
    ((a.execute_move_step d m).1 = .ok →
      ((a.execute_move_step d m).2.2).in_bounds
        ((a.execute_move_step d m).2.1.x) ((a.execute_move_step d m).2.1.y) = true ∧
      ((a.execute_move_step d m).2.2).is_traversable
        ((a.execute_move_step d m).2.1.x) ((a.execute_move_step d m).2.1.y) = true) ∧
    (∀ msg, (a.execute_move_step d m).1 = .err msg →
      (a.execute_move_step d m).2.1.x = a.x ∧ (a.execute_move_step d m).2.1.y = a.y) := by
  simp only [Agent.execute_move_step]
  split
  next hcond =>
    constructor
    · intro hok
      exact absurd hok (by simp)
    · intro msg _
      exact ⟨rfl, rfl⟩
  next hcond =>
    split
    next hblock =>
      constructor
      · intro hok
        exact absurd hok (by simp)
      · intro msg _
        exact ⟨rfl, rfl⟩
    next hblock =>
      refine ⟨fun _ => ?_, fun msg hmsg => absurd hmsg (by simp)⟩
      simp only [decide_eq_true_eq, Bool.or_eq_true] at hcond
      push_neg at hcond
      have htrav : m.is_traversable
          (d.apply (a.x : Int) (a.y : Int) (m.width : Int) (m.height : Int)).1.toNat
          (d.apply (a.x : Int) (a.y : Int) (m.width : Int) (m.height : Int)).2.toNat = true := by
        simpa using hblock
      constructor
      · simp only [Agent.log, Agent.set_pos, GridMap.in_bounds,
          GridMap.set_width, GridMap.set_height, Bool.and_eq_true, decide_eq_true_eq]
        omega
      · simp only [Agent.log, Agent.set_pos]
        by_cases hsame :
            (d.apply (a.x : Int) (a.y : Int) (m.width : Int) (m.height : Int)).1.toNat = a.x ∧
            (d.apply (a.x : Int) (a.y : Int) (m.width : Int) (m.height : Int)).2.toNat = a.y
        · obtain ⟨t, hget, _⟩ := GridMap.get_isSome_of_traversable htrav
          rw [hsame.1, hsame.2] at hget ⊢
          unfold GridMap.is_traversable
          rw [GridMap.get_set_self (by rw [hget]; rfl)]
          rfl
        · have hb' : m.in_bounds
              (d.apply (a.x : Int) (a.y : Int) (m.width : Int) (m.height : Int)).1.toNat
              (d.apply (a.x : Int) (a.y : Int) (m.width : Int) (m.height : Int)).2.toNat = true := by
            simp only [GridMap.in_bounds, Bool.and_eq_true, decide_eq_true_eq]
            omega
          unfold GridMap.is_traversable at htrav ⊢
          rw [GridMap.get_set_other hsame hb']
          exact htrav

/-- Witness for C5 at concrete inputs: a successful step down from (0,0)
lands in-bounds on a traversable cell, and the failing step up from (0,0)
leaves the position unchanged. -/
theorem c5_move_step_safety_witness :
    ((agentFix.execute_move_step .Down mapFix).1 = .ok ∧
     ((agentFix.execute_move_step .Down mapFix).2.2).in_bounds
       ((agentFix.execute_move_step .Down mapFix).2.1.x)
       ((agentFix.execute_move_step .Down mapFix).2.1.y) = true ∧
     ((agentFix.execute_move_step .Down mapFix).2.2).is_traversable
       ((agentFix.execute_move_step .Down mapFix).2.1.x)
       ((agentFix.execute_move_step .Down mapFix).2.1.y) = true) ∧
    ((agentFix.execute_move_step .Up mapFix).1 =
       .err "ABORT: Movement blocked - edge of map" ∧
     (agentFix.execute_move_step .Up mapFix).2.1.x = agentFix.x ∧
     (agentFix.execute_move_step .Up mapFix).2.1.y = agentFix.y) :=
  ⟨⟨by decide, (c5_move_step_safety agentFix .Down mapFix).1 (by decide)⟩,
   ⟨by decide, (c5_move_step_safety agentFix .Up mapFix).2
      "ABORT: Movement blocked - edge of map" (by decide)⟩⟩

/-! ## Claim C6: all-or-nothing resolution of a pending tool execution -/

/-- Claim C6: `is_complete` reports a PendingExecution resolved exactly when
none of its action ids remains in the live queue (all-or-nothing, so never
a partial resolution); moreover, when every live action carrying one of its
ids belongs to subject `aid` — the situation of a failing movement
sequence — the abort path (cancel the subject's actions, then record the
failing action's outcome) leaves the execution resolved, so it cannot
hang. -/
theorem c6_resolution_iff (p : PendingToolExecution) (q : EventQueue)
    (aid : Nat) (fid : EventId) (r : RunResult) :
    (p.is_complete q = true ↔ ∀ e ∈ q.events, e.id ∉ p.event_ids) ∧
    ((∀ e ∈ q.events, e.id ∈ p.event_ids → e.event.matchesAgent aid = true) →
      p.is_complete ((q.cancel_agent_events aid).complete fid r) = true) := by
  constructor
  · unfold PendingToolExecution.is_complete
    rw [Bool.not_eq_eq_eq_not, Bool.not_true, List.any_eq_false]
    simp
  · intro hall
    unfold PendingToolExecution.is_complete
    rw [Bool.not_eq_eq_eq_not, Bool.not_true, List.any_eq_false]
    intro e he
    have he2 : e ∈ (q.cancel_agent_events aid).events :=
      (removeFirstById_sublist _ _).mem he
    have he3 := List.mem_filter.mp he2
    simp only [List.elem_eq_mem, decide_eq_true_eq]
    intro hid
    have hmatch := hall e he3.1 hid
    cases hev : e.event with
    | AgentMove a d =>
      rw [hev] at hmatch
      have hkeep := he3.2
      rw [hev] at hkeep
      simp [GameEvent.matchesAgent] at hmatch
      simp [hmatch] at hkeep
    | Delay t =>
      rw [hev] at hmatch
      simp [GameEvent.matchesAgent] at hmatch

/-- Witness for C6: the mid-flight three-step sequence of agent 1 resolves
after the abort path cancels the remaining actions and completes the
failing one. -/
theorem c6_resolution_iff_witness :
    (∀ e ∈ qMidSequence.events, e.id ∈ pendingFix.event_ids →
       e.event.matchesAgent 1 = true) ∧
    pendingFix.is_complete
      ((qMidSequence.cancel_agent_events 1).complete 0 (.err "x")) = true :=
  ⟨by decide, (c6_resolution_iff pendingFix qMidSequence 1 0 (.err "x")).2 (by decide)⟩

/-! ## Claim C7: the pop-ready contract -/

/-- Claim C7: a single `pop_ready` call returns at most one action (its
result type is an `Option`); any returned action was a Pending entry of the
queue whose `readyAt` had arrived, and the returned copy is marked
Processing; and on a well-formed queue the returned id was never previously
passed to `complete` (live ids are disjoint from the outcome log). -/
theorem c7_pop_ready_contract (q : EventQueue) (now : Nat) (hWF : q.WF)
    (m : ScheduledEvent) (q' : EventQueue)
    (h : q.pop_ready now = (some m, q')) :
    (∃ e₀ ∈ q.events, e₀.status = .Pending ∧ e₀.execute_at ≤ now ∧
       m = { e₀ with status := .Processing }) ∧
    m.status = .Processing ∧
    (∀ c ∈ q.completed, m.id ≠ c.1) := by
  unfold EventQueue.pop_ready at h
  cases haux : popReadyAux now q.events with
  | none =>
    rw [haux] at h
    exact absurd h (by simp)
  | some pr =>
    obtain ⟨m₀, ev'⟩ := pr
    rw [haux] at h
    obtain ⟨hm, hq⟩ := Prod.mk.injEq .. ▸ h
    have hm0 : m₀ = m := Option.some.inj hm
    subst hm0
    obtain ⟨e₀, he₀, hst, hex, hmm, hmem, hperm, hlen⟩ := popReadyAux_some haux
    refine ⟨⟨e₀, he₀, hst, hex, hmm⟩, by rw [hmm], ?_⟩
    intro c hc
    have hid : m₀.id = e₀.id := by rw [hmm]
    rw [hid]
    exact hWF.2.1 e₀.id (List.mem_map_of_mem (fun e => e.id) he₀) c hc

/-- Witness for C7 at the concrete one-event ready queue. -/
theorem c7_pop_ready_contract_witness :
    qFix.WF ∧
    ((∃ e₀ ∈ qFix.events, e₀.status = .Pending ∧ e₀.execute_at ≤ 0 ∧
        (⟨0, .Delay 1, 0, .Processing⟩ : ScheduledEvent) =
          { e₀ with status := .Processing }) ∧
     (⟨0, .Delay 1, 0, .Processing⟩ : ScheduledEvent).status = .Processing ∧
     (∀ c ∈ qFix.completed, (⟨0, .Delay 1, 0, .Processing⟩ : ScheduledEvent).id ≠ c.1)) :=
  ⟨(by unfold EventQueue.WF; decide),
   c7_pop_ready_contract qFix 0 (by unfold EventQueue.WF; decide) _ _ rfl⟩

/-! ## Claim C8: sequence submission schedule -/

theorem enumFrom_shift_map {α β : Type} (l : List α) (n : Nat) (g : Nat × α → β) :
    (l.enumFrom (n + 1)).map g = (l.enumFrom n).map (fun kv => g (kv.1 + 1, kv.2)) := by
  induction l generalizing n with
  | nil => rfl
  | cons a rest ih =>
    rw [List.enumFrom_cons, List.enumFrom_cons, List.map_cons, List.map_cons, ih]

theorem submitSeqAux_spec (events : List GameEvent) (q : EventQueue)
    (now c Δ : Nat) :
    (submitSeqAux q now events c Δ).1 = List.range' q.nextId events.length ∧
    (submitSeqAux q now events c Δ).2.events =
      q.events ++ events.enum.map (fun kv =>
        ⟨q.nextId + kv.1, kv.2, now + (c + kv.1 * Δ), .Pending⟩) ∧
    (submitSeqAux q now events c Δ).2.completed = q.completed ∧
    (submitSeqAux q now events c Δ).2.nextId = q.nextId + events.length := by
  induction events generalizing q c with
  | nil => simp [submitSeqAux]
  | cons e rest ih =>
    have hrec := ih (EventQueue.mk
      (q.events ++ [⟨q.nextId, e, now + c, .Pending⟩]) q.completed (q.nextId + 1)) (c + Δ)
    obtain ⟨ih1, ih2, ih3, ih4⟩ := hrec
    refine ⟨?_, ?_, ?_, ?_⟩
    · simp only [submitSeqAux, EventQueue.submit]
      rw [ih1, List.length_cons, List.range'_succ]
    · simp only [submitSeqAux, EventQueue.submit]
      rw [ih2]
      simp only [List.enum_cons, List.map_cons, List.append_assoc, List.singleton_append,
        Nat.add_zero, Nat.zero_mul]
      congr 1
      rw [show List.enumFrom 1 rest = rest.enumFrom (0 + 1) from rfl,
        enumFrom_shift_map rest 0 (fun kv =>
          (⟨q.nextId + kv.1, kv.2, now + (c + kv.1 * Δ), .Pending⟩ : ScheduledEvent)),
        show rest.enumFrom 0 = rest.enum from rfl]
      congr 1
      apply List.map_congr_left
      intro kv _
      simp only [ScheduledEvent.mk.injEq, and_true, true_and]
      constructor
      · show q.nextId + 1 + kv.1 = q.nextId + (kv.1 + 1)
        omega
      · show now + (c + Δ + kv.1 * Δ) = now + (c + (kv.1 + 1) * Δ)
        ring
    · simp only [submitSeqAux, EventQueue.submit]
      exact ih3
    · simp only [submitSeqAux, EventQueue.submit]
      rw [ih4, List.length_cons]
      show q.nextId + 1 + rest.length = q.nextId + (rest.length + 1)
      omega

/-- Claim C8: `submit_sequence` returns consecutive fresh ids in submission
order, and schedules action k (0-indexed) with `readyAt` equal to the
submission time plus k·Δ, appending the actions as Pending behind the
existing queue. -/
theorem c8_submit_sequence_schedule (q : EventQueue) (now : Nat)
    (events : List GameEvent) (Δ : Nat) :
    (q.submit_sequence now events Δ).1 = List.range' q.nextId events.length ∧
    (q.submit_sequence now events Δ).2.events =
      q.events ++ events.enum.map (fun kv =>
        ⟨q.nextId + kv.1, kv.2, now + kv.1 * Δ, .Pending⟩) := by
  obtain ⟨h1, h2, h3, h4⟩ := submitSeqAux_spec events q now 0 Δ
  refine ⟨h1, ?_⟩
  rw [show q.submit_sequence now events Δ = submitSeqAux q now events 0 Δ from rfl, h2]
  congr 1
  apply List.map_congr_left
  intro kv _
  rw [Nat.zero_add]

/-! ## Claim C9: the subject-identity check -/

/-- Claim C9, counterexample: the supplied subject identifier 4294967297
differs from the state machine's id 1, yet the call succeeds, because the
code wraps the supplied u64 to u32 (`as u32`) before comparing and
4294967297 mod 2^32 = 1. -/
theorem c9_u32_wrap_counterexample :
    ((4294967297 : Nat) ≠ agentFix.id) ∧
    (agentFix.handle_tool_call 0 "get_position"
      (.obj [("agent_id", .num 4294967297)]) mapFix).1.isOk = true := by
  exact ⟨by decide, rfl⟩

/-- Claim C9 as amended: the two read-only meta tools (world view and
free-form reasoning) succeed with no subject-identity check and no state
change; every other tool is rejected with a validation error — leaving the
position, the queued moves and the world unchanged — when the supplied
identifier is missing or when its value wrapped to u32 differs from the
subject's id (the comparison happens after a u64-to-u32 cast). -/
theorem c9_subject_identity_amended (a : Agent) (now : Nat) (name : String)
    (args : JsonValue) (m : GridMap) :
    ((name = "get_map_state" ∨ name = "think") →
      ((a.handle_tool_call now name args m).1.isOk = true ∧
       (a.handle_tool_call now name args m).2.1 = a ∧
       (a.handle_tool_call now name args m).2.2 = m)) ∧
    ((name ≠ "get_map_state" ∧ name ≠ "think" ∧
      (∀ g, (args.getKey "agent_id").bind JsonValue.as_u64 = some g →
        g % 2 ^ 32 ≠ a.id)) →
      ((a.handle_tool_call now name args m).1.isOk = false ∧
       (a.handle_tool_call now name args m).2.1.x = a.x ∧
       (a.handle_tool_call now name args m).2.1.y = a.y ∧
       (a.handle_tool_call now name args m).2.1.pending_moves = a.pending_moves ∧
       (a.handle_tool_call now name args m).2.2 = m)) := by
  constructor
  · intro h
    rcases h with h | h <;> subst h <;> exact ⟨rfl, rfl, rfl⟩
  · rintro ⟨h1, h2, h3⟩
    unfold Agent.handle_tool_call
    rw [if_neg (by simp [h1]), if_neg (by simp [h2])]
    cases hget : (args.getKey "agent_id").bind JsonValue.as_u64 with
    | none => exact ⟨rfl, rfl, rfl, rfl, rfl⟩
    | some got =>
      have hne := h3 got hget
      simp only []
      rw [if_pos hne]
      exact ⟨rfl, rfl, rfl, rfl, rfl⟩

/-- Witness for the amended C9: the `think` meta tool succeeds without any
identifier, and `get_position` with the mismatched identifier 2 is rejected
with no state change. -/
theorem c9_subject_identity_amended_witness :
    ((agentFix.handle_tool_call 0 "think" (.obj []) mapFix).1.isOk = true ∧
     (agentFix.handle_tool_call 0 "think" (.obj []) mapFix).2.1 = agentFix ∧
     (agentFix.handle_tool_call 0 "think" (.obj []) mapFix).2.2 = mapFix) ∧
    ((agentFix.handle_tool_call 0 "get_position"
        (.obj [("agent_id", .num 2)]) mapFix).1.isOk = false ∧
     (agentFix.handle_tool_call 0 "get_position"
        (.obj [("agent_id", .num 2)]) mapFix).2.1.x = agentFix.x ∧
     (agentFix.handle_tool_call 0 "get_position"
        (.obj [("agent_id", .num 2)]) mapFix).2.1.y = agentFix.y ∧
     (agentFix.handle_tool_call 0 "get_position"
        (.obj [("agent_id", .num 2)]) mapFix).2.1.pending_moves =
       agentFix.pending_moves ∧
     (agentFix.handle_tool_call 0 "get_position"
        (.obj [("agent_id", .num 2)]) mapFix).2.2 = mapFix) :=
  ⟨(c9_subject_identity_amended agentFix 0 "think" (.obj []) mapFix).1 (Or.inr rfl),
   (c9_subject_identity_amended agentFix 0 "get_position"
      (.obj [("agent_id", .num 2)]) mapFix).2
     ⟨by decide, by decide, by
       intro g hg
       rw [show (((JsonValue.obj [("agent_id", JsonValue.num 2)]).getKey
         "agent_id").bind JsonValue.as_u64) = some 2 from rfl] at hg
       obtain rfl := (Option.some.inj hg).symm
       decide⟩⟩

/-! ## Claim C10: Processing actions stay live until completed -/

/-- Claim C10: an action returned by `pop_ready` stays in the live queue
with status Processing, so the queue length (`pending_count`) is unchanged
(Processing actions are counted alongside Pending ones) and every
PendingExecution carrying its id stays unresolved; it leaves the live set
exactly when `complete` is called with its id. -/
theorem c10_processing_lifecycle (q : EventQueue) (now : Nat) (hWF : q.WF)
    (m : ScheduledEvent) (q' : EventQueue)
    (h : q.pop_ready now = (some m, q')) :
    m ∈ q'.events ∧ m.status = .Processing ∧
    q'.pending_count = q.pending_count ∧
    (∀ p : PendingToolExecution, m.id ∈ p.event_ids → p.is_complete q' = false) ∧
    (∀ r, m.id ∉ ((q'.complete m.id r).events.map (fun e => e.id))) := by
  unfold EventQueue.pop_ready at h
  cases haux : popReadyAux now q.events with
  | none =>
    rw [haux] at h
    exact absurd h (by simp)
  | some pr =>
    obtain ⟨m₀, ev'⟩ := pr
    rw [haux] at h
    obtain ⟨hm, hq⟩ := Prod.mk.injEq .. ▸ h
    have hm0 : m₀ = m := Option.some.inj hm
    subst hm0
    have hq' : q' = { q with events := ev' } := hq.symm
    subst hq'
    obtain ⟨e₀, he₀, hst, hex, hmm, hmem, hperm, hlen⟩ := popReadyAux_some haux
    refine ⟨hmem, by rw [hmm], hlen, ?_, ?_⟩
    · intro p hp
      simp only [PendingToolExecution.is_complete, Bool.not_eq_false',
        List.any_eq_true]
      exact ⟨m₀, hmem, by simpa using hp⟩
    · intro r
      show m₀.id ∉ (removeFirstById ev' m₀.id).map (fun e => e.id)
      exact removeFirstById_id_not_mem (hperm.nodup_iff.mpr hWF.1)

/-- Witness for C10 at the concrete one-event ready queue. -/
theorem c10_processing_lifecycle_witness :
    qFix.WF ∧
    ((⟨0, .Delay 1, 0, .Processing⟩ : ScheduledEvent) ∈
       (⟨[⟨0, .Delay 1, 0, .Processing⟩], [], 1⟩ : EventQueue).events ∧
     (⟨0, .Delay 1, 0, .Processing⟩ : ScheduledEvent).status = .Processing ∧
     (⟨[⟨0, .Delay 1, 0, .Processing⟩], [], 1⟩ : EventQueue).pending_count =
       qFix.pending_count ∧
     (∀ p : PendingToolExecution,
       (⟨0, .Delay 1, 0, .Processing⟩ : ScheduledEvent).id ∈ p.event_ids →
         p.is_complete (⟨[⟨0, .Delay 1, 0, .Processing⟩], [], 1⟩ : EventQueue) = false) ∧
     (∀ r, (⟨0, .Delay 1, 0, .Processing⟩ : ScheduledEvent).id ∉
       (((⟨[⟨0, .Delay 1, 0, .Processing⟩], [], 1⟩ : EventQueue).complete 0 r).events.map
         (fun e => e.id)))) :=
  ⟨(by unfold EventQueue.WF; decide),
   c10_processing_lifecycle qFix 0 (by unfold EventQueue.WF; decide) _ _ rfl⟩

/-! ## Well-formedness is an invariant of every scheduler operation -/

theorem WF_new (firstId : Nat) : (EventQueue.new firstId).WF := by
  unfold EventQueue.new EventQueue.WF
  simp

theorem WF_submit {q : EventQueue} (h : q.WF) (now : Nat) (ev : GameEvent)
    (delay : Nat) : (q.submit now ev delay).2.WF := by
  obtain ⟨h1, h2, h3, h4⟩ := h
  refine ⟨?_, ?_, ?_, ?_⟩
  · show ((q.events ++
        [(⟨q.nextId, ev, now + delay, .Pending⟩ : ScheduledEvent)]).map
          (fun e => e.id)).Nodup
    rw [List.map_append, List.nodup_append]
    refine ⟨h1, by simp, ?_⟩
    intro i hi hj
    simp only [List.map_cons, List.map_nil, List.mem_singleton] at hj
    subst hj
    exact absurd (h3 _ hi) (Nat.lt_irrefl _)
  · show ∀ i ∈ (q.events ++
        [(⟨q.nextId, ev, now + delay, .Pending⟩ : ScheduledEvent)]).map
          (fun e => e.id), ∀ c ∈ q.completed, i ≠ c.1
    intro i hi c hc
    rw [List.map_append] at hi
    rcases List.mem_append.mp hi with hi | hi
    · exact h2 i hi c hc
    · simp only [List.map_cons, List.map_nil, List.mem_singleton] at hi
      subst hi
      exact (Nat.ne_of_lt (h4 c hc)).symm
  · show ∀ i ∈ (q.events ++
        [(⟨q.nextId, ev, now + delay, .Pending⟩ : ScheduledEvent)]).map
          (fun e => e.id), i < q.nextId + 1
    intro i hi
    rw [List.map_append] at hi
    rcases List.mem_append.mp hi with hi | hi
    · exact Nat.lt_succ_of_lt (h3 i hi)
    · simp only [List.map_cons, List.map_nil, List.mem_singleton] at hi
      subst hi
      exact Nat.lt_succ_self _
  · show ∀ c ∈ q.completed, c.1 < q.nextId + 1
    intro c hc
    exact Nat.lt_succ_of_lt (h4 c hc)

theorem WF_submitSeqAux (events : List GameEvent) {q : EventQueue} (h : q.WF)
    (now c Δ : Nat) : (submitSeqAux q now events c Δ).2.WF := by
  induction events generalizing q c with
  | nil => exact h
  | cons e rest ih => exact ih (WF_submit h now e c) (c + Δ)

theorem WF_submit_sequence (events : List GameEvent) {q : EventQueue}
    (h : q.WF) (now Δ : Nat) : (q.submit_sequence now events Δ).2.WF :=
  WF_submitSeqAux events h now 0 Δ

theorem WF_pop_ready {q : EventQueue} (h : q.WF) (now : Nat) :
    (q.pop_ready now).2.WF := by
  obtain ⟨h1, h2, h3, h4⟩ := h
  unfold EventQueue.pop_ready
  cases haux : popReadyAux now q.events with
  | none => exact ⟨h1, h2, h3, h4⟩
  | some pr =>
    obtain ⟨m₀, ev'⟩ := pr
    obtain ⟨e₀, he₀, hst, hex, hmm, hmem, hperm, hlen⟩ := popReadyAux_some haux
    refine ⟨hperm.nodup_iff.mpr h1, ?_, ?_, h4⟩
    · intro i hi c hc
      exact h2 i (hperm.mem_iff.mp hi) c hc
    · intro i hi
      exact h3 i (hperm.mem_iff.mp hi)

theorem WF_complete {q : EventQueue} (h : q.WF) {i : EventId}
    (hlt : i < q.nextId) (r : RunResult) : (q.complete i r).WF := by
  obtain ⟨h1, h2, h3, h4⟩ := h
  have hsub : ((removeFirstById q.events i).map (fun e => e.id)).Sublist
      (q.events.map (fun e => e.id)) :=
    (removeFirstById_sublist q.events i).map (fun e => e.id)
  refine ⟨h1.sublist hsub, ?_, ?_, ?_⟩
  · intro j hj c hc
    rcases List.mem_append.mp hc with hc | hc
    · exact h2 j (hsub.mem hj) c hc
    · simp only [List.mem_singleton] at hc
      subst hc
      intro hji
      rw [hji] at hj
      exact removeFirstById_id_not_mem h1 hj
  · intro j hj
    exact h3 j (hsub.mem hj)
  · intro c hc
    rcases List.mem_append.mp hc with hc | hc
    · exact h4 c hc
    · simp only [List.mem_singleton] at hc
      subst hc
      exact hlt

theorem WF_cancel_events {q : EventQueue} (h : q.WF) (ids : List EventId) :
    (q.cancel_events ids).WF := by
  obtain ⟨h1, h2, h3, h4⟩ := h
  have hsub : ((q.cancel_events ids).events.map (fun e => e.id)).Sublist
      (q.events.map (fun e => e.id)) :=
    (List.filter_sublist q.events).map (fun e => e.id)
  exact ⟨h1.sublist hsub, fun i hi c hc => h2 i (hsub.mem hi) c hc,
    fun i hi => h3 i (hsub.mem hi), h4⟩

theorem WF_cancel_agent_events {q : EventQueue} (h : q.WF) (aid : Nat) :
    (q.cancel_agent_events aid).WF := by
  obtain ⟨h1, h2, h3, h4⟩ := h
  have hsub : ((q.cancel_agent_events aid).events.map (fun e => e.id)).Sublist
      (q.events.map (fun e => e.id)) :=
    (List.filter_sublist q.events).map (fun e => e.id)
  exact ⟨h1.sublist hsub, fun i hi c hc => h2 i (hsub.mem hi) c hc,
    fun i hi => h3 i (hsub.mem hi), h4⟩

theorem WF_clear {q : EventQueue} (_h : q.WF) : q.clear.WF := by
  unfold EventQueue.clear EventQueue.WF
  simp
